import Mathlib

/-!
Verification of the lib4bottle binary codec core.

Shallow embedding of `src/zint.rs` and `src/bottle.rs`.  Byte sources and
sinks are modelled as `List Nat` (each element a byte value `< 256`);
machine integers (`u64`, `usize`) are modelled as `Nat`, with wrapping casts
written as explicit `% 2 ^ w` where the source performs an `as` truncation.
Fallible functions return `Option` / `Except`.
-/

namespace Lib4bottle

/-! ## zint.rs -/

/-- Loop of `encode_packed_int` (zint.rs): while the remaining value exceeds
255 it emits the low byte and shifts right by 8, then emits a final byte.
The source's loop is bounded by its fixed `[u8; 8]` buffer, so the
iteration count is carried here as fuel (8 at the top-level call);
for every `u64` input at most 7 loop iterations occur, so the fuel is
never exhausted and the behaviour is identical to the source's. -/
def encode_packed_int_aux : Nat → Nat → List Nat
  | 0, n => [n &&& 0xff]
  | fuel + 1, n =>
    if n > 255 then (n &&& 0xff) :: encode_packed_int_aux fuel (n >>> 8)
    else [n &&& 0xff]

/-- `encode_packed_int` (zint.rs): the byte sequence written to the writer,
in order (little-endian, length implicit). -/
def encode_packed_int (number : Nat) : List Nat :=
  encode_packed_int_aux 8 number

/-- Loop of `decode_packed_int` (zint.rs).  The Rust loop condition is
`reader.read(&mut buffer)? > 0 && shift < 64`: the read (which consumes a
byte from the source when one is available) is evaluated before the
`shift < 64` test, so a byte is consumed and then discarded when the cap is
reached.  The u64 accumulation `rv += byte << shift` never wraps: each
summand is `byte * 2 ^ (8*i)` with `byte < 256` and at most eight summands,
so `rv ≤ 2 ^ 64 - 1`. -/
def decode_packed_int_aux : List Nat → Nat → Nat → Nat × List Nat
  | [], rv, _ => (rv, [])
  | b :: rest, rv, shift =>
    if shift < 64 then decode_packed_int_aux rest (rv + (b <<< shift)) (shift + 8)
    else (rv, rest)

/-- `decode_packed_int` (zint.rs): returns the accumulated value together
with the part of the source it did not consume. -/
def decode_packed_int (source : List Nat) : Nat × List Nat :=
  decode_packed_int_aux source 0 0

/-- Little-endian value of a byte list: the specification-side meaning of a
packed integer. -/
def le_value : List Nat → Nat
  | [] => 0
  | b :: rest => b + 256 * le_value rest

/-- `log_base2` (zint.rs): the 32-bit SWAR popcount of `number - 1`,
transcribed literally, including the final `x += x << 8; x += x << 16;
x >>= 24` steps, which on `u64` (unlike `u32`, where the additions wrap)
leave the byte-wise partial sums above bit 8 in place.  All callers pass
`number ≥ 1` (so the initial `x -= 1` does not underflow) and the
intermediate values stay far below `2 ^ 64`, so plain `Nat` arithmetic
agrees with the `u64` arithmetic of the source. -/
def log_base2 (number : Nat) : Nat :=
  let x0 := number - 1
  let x1 := x0 - ((x0 >>> 1) &&& 0x55555555)
  let x2 := (x1 &&& 0x33333333) + ((x1 >>> 2) &&& 0x33333333)
  let x3 := (x2 + (x2 >>> 4)) &&& 0x0F0F0F0F
  let x4 := x3 + (x3 <<< 8)
  let x5 := x4 + (x4 <<< 16)
  x5 >>> 24

/-- `encode_length` (zint.rs): the length-varint encoder.  `some bytes` is
the byte sequence written; `none` is the `Err(InvalidInput)` arm.  The
guards are the source's match guards in order; `(0xf0 + log_base2 n - 7)
as u8` is the `% 256` truncation. -/
def encode_length (number : Nat) : Option (List Nat) :=
  if number < 128 then
    some [number]
  else if number ≤ 1 <<< 22 ∧ number &&& (number - 1) = 0 then
    some [(0xf0 + log_base2 number - 7) % 256]
  else if number < 8192 then
    some [0x80 + (number &&& 0x3f), (number >>> 6) &&& 0xff]
  else if number < 1 <<< 21 then
    some [0xc0 + (number &&& 0x1f), (number >>> 5) &&& 0xff, (number >>> 13) &&& 0xff]
  else if number < 1 <<< 28 then
    some [0xe0 + (number &&& 0xf), (number >>> 4) &&& 0xff,
      (number >>> 12) &&& 0xff, (number >>> 20) &&& 0xff]
  else
    none

/-- Result of decoding a length varint: either an ordinary value (0 being
the end-of-stream marker) or the end-of-all-streams marker. -/
inductive LengthCode where
  | value : Nat → LengthCode
  | endOfAllStreams : LengthCode
deriving DecidableEq

/-- Modelled from the spec: `decode_length` is absent from `src/zint.rs`
(only commented-out JavaScript remains), so this follows the spec's branch
rules: the first byte `0xFF` decodes to the end-of-all-streams marker; top
bit 0 selects the direct small-value branch (`0x00` giving the value-0
end-of-stream marker); mask `0xF0` selects the power-of-two branch
`2 ^ (7 + (b0 & 0xF))`; masks `0x80`/`0xC0`/`0xE0` select the 2/3/4-byte
branches, each inverting the corresponding encoder branch and reading the
indicated number of additional bytes.  `none` means the buffer is too short
or the first byte fits no branch. -/
def decode_length : List Nat → Option LengthCode
  | [] => none
  | b0 :: rest =>
    if b0 = 0xff then some .endOfAllStreams
    else if b0 &&& 0x80 = 0 then some (.value b0)
    else if b0 &&& 0xf0 = 0xf0 then some (.value (2 ^ (7 + (b0 &&& 0xf))))
    else if b0 &&& 0xc0 = 0x80 then
      match rest with
      | b1 :: _ => some (.value ((b0 &&& 0x3f) + (b1 <<< 6)))
      | [] => none
    else if b0 &&& 0xe0 = 0xc0 then
      match rest with
      | b1 :: b2 :: _ => some (.value ((b0 &&& 0x1f) + (b1 <<< 5) + (b2 <<< 13)))
      | _ => none
    else if b0 &&& 0xf0 = 0xe0 then
      match rest with
      | b1 :: b2 :: b3 :: _ =>
        some (.value ((b0 &&& 0xf) + (b1 <<< 4) + (b2 <<< 12) + (b3 <<< 20)))
      | _ => none
    else none

/-! ## bottle.rs -/

/-- `BottleType` (bottle.rs): closed enumeration of the assigned type codes. -/
inductive BottleType where
  | File
  | Hashed
  | Encrypted
  | Compressed
  | Test
  | Test2
deriving DecidableEq

/-- The discriminant of each `BottleType` variant (`File = 0, Hashed = 1,
Encrypted = 3, Compressed = 4, Test = 10, Test2 = 11`). -/
def BottleType.code : BottleType → Nat
  | .File => 0
  | .Hashed => 1
  | .Encrypted => 3
  | .Compressed => 4
  | .Test => 10
  | .Test2 => 11

/-- The error values produced by bottle.rs (each an `io::Error` with
`ErrorKind::InvalidInput` and a distinguishing message). -/
inductive BottleErr where
  | badMagic
  | badVersion : Nat → Nat → BottleErr
  | unknownBottleType : Nat → BottleErr
deriving DecidableEq

/-- `decode_bottle_type` (bottle.rs). -/
def decode_bottle_type (btype : Nat) : Except BottleErr BottleType :=
  match btype with
  | 0 => .ok .File
  | 1 => .ok .Hashed
  | 3 => .ok .Encrypted
  | 4 => .ok .Compressed
  | 10 => .ok .Test
  | 11 => .ok .Test2
  | _ => .error (.unknownBottleType btype)

/-- `MAGIC` (bottle.rs). -/
def MAGIC : List Nat := [0xf0, 0x9f, 0x8d, 0xbc]

/-- `VERSION` (bottle.rs). -/
def VERSION : Nat := 0

/-- Modelled from the spec: bottle.rs calls a value-returning
`zint::encode_length(n) -> bytes` that is absent from `src/zint.rs` (whose
`encode_length` writes to a writer); per the spec the bytes produced are
those of the length-varint encoder. -/
def encode_length_bytes (n : Nat) : List Nat :=
  (encode_length n).getD []

/-- Modelled from the spec: the constant `zint::END_OF_STREAM` referenced by
bottle.rs is absent from `src/zint.rs`; per the spec the end-of-stream
sentinel is the value 0 (encoding to the single byte `0x00`). -/
def END_OF_STREAM : Nat := 0

/-- `END_OF_STREAM_BYTES` (bottle.rs). -/
def END_OF_STREAM_BYTES : List Nat := encode_length_bytes END_OF_STREAM

/-- The fold of `framed_vec_stream` (bottle.rs) computing the total byte
length of a chunk-group's buffers. -/
def total_length (buffers : List (List Nat)) : Nat :=
  buffers.foldl (fun sum buf => sum + buf.length) 0

/-- `framed_vec_stream` (bottle.rs): streams are modelled as lists of
chunk-groups, each chunk-group a list of byte buffers.  Each group is
mapped to the same group with `encode_length(total_length as u32)` pushed
in front (`% 2 ^ 32` is the `as u32` cast), and one final one-buffer group
holding the end-of-stream sentinel is chained on. -/
def framed_vec_stream (s : List (List (List Nat))) : List (List (List Nat)) :=
  (s.map fun buffers =>
    encode_length_bytes (total_length buffers % 2 ^ 32) :: buffers)
  ++ [[END_OF_STREAM_BYTES]]

/-- `make_header_stream` (bottle.rs): the single chunk-group emitted —
the 4 magic bytes, the 4-byte `version` array, and the encoded header
bytes (`make_stream` of stream_helpers, absent from src, is per the spec a
one-element stream).  The source asserts `header_bytes.len() ≤ 4095`
before building the `version` array. -/
def make_header_stream (btype : BottleType) (header_bytes : List Nat) : List (List Nat) :=
  [MAGIC,
   [VERSION, 0,
    (btype.code <<< 4) ||| ((header_bytes.length >>> 8) &&& 0xf),
    header_bytes.length &&& 0xff],
   header_bytes]

/-- `check_magic` (bottle.rs), on the 8-byte buffer obtained by
`stream_read_exact(s, 8)`.  The header-length expression transcribes the
source's `((buffer[6] & 0xf) as usize) << 8 + (buffer[7] as usize)`, in
which Rust parses `+` tighter than `<<`, i.e. a shift by `8 + buffer[7]`. -/
def check_magic (buffer : List Nat) : Except BottleErr (BottleType × Nat) :=
  if buffer.take 4 ≠ MAGIC then
    .error .badMagic
  else if buffer.getD 4 0 ≠ VERSION ∨ buffer.getD 5 0 ≠ 0 then
    .error (.badVersion (buffer.getD 4 0) (buffer.getD 5 0))
  else
    match decode_bottle_type ((buffer.getD 6 0 >>> 4) &&& 0xf) with
    | .error e => .error e
    | .ok btype => .ok (btype, (buffer.getD 6 0 &&& 0xf) <<< (8 + buffer.getD 7 0))

/-! ## Helper lemmas: packed integers -/

theorem and_255_eq_mod (n : Nat) : n &&& 255 = n % 256 := by
  have h := Nat.and_pow_two_sub_one_eq_mod n 8
  norm_num at h
  exact h

theorem shiftRight_8_eq_div (n : Nat) : n >>> 8 = n / 256 := by
  rw [Nat.shiftRight_eq_div_pow]

theorem decode_aux_append (a rest : List Nat) (rv shift : Nat)
    (h : shift + 8 * a.length ≤ 64) :
    decode_packed_int_aux (a ++ rest) rv shift
      = decode_packed_int_aux rest (rv + le_value a * 2 ^ shift) (shift + 8 * a.length) := by
  induction a generalizing rv shift with
  | nil => simp [le_value]
  | cons b t ih =>
    simp only [List.length_cons] at h
    have hlt : shift < 64 := by omega
    simp only [List.cons_append, decode_packed_int_aux, if_pos hlt]
    rw [show t.append rest = t ++ rest from rfl,
      ih (rv + b <<< shift) (shift + 8) (by omega)]
    have harg : rv + b <<< shift + le_value t * 2 ^ (shift + 8)
        = rv + le_value (b :: t) * 2 ^ shift := by
      rw [Nat.shiftLeft_eq, pow_add]
      show _ = rv + (b + 256 * le_value t) * 2 ^ shift
      ring
    rw [harg]
    congr 1
    simp only [List.length_cons]
    ring

theorem decode_aux_cap (l : List Nat) (rv : Nat) :
    decode_packed_int_aux l rv 64 = (rv, l.tail) := by
  cases l <;> simp [decode_packed_int_aux]

theorem le_value_encode_aux (fuel n : Nat) (h : n < 2 ^ (8 * (fuel + 1))) :
    le_value (encode_packed_int_aux fuel n) = n := by
  induction fuel generalizing n with
  | zero =>
    simp only [encode_packed_int_aux, le_value, and_255_eq_mod]
    norm_num at h
    omega
  | succ fuel ih =>
    by_cases hn : n > 255
    · have hdiv : n >>> 8 < 2 ^ (8 * (fuel + 1)) := by
        rw [shiftRight_8_eq_div]
        have hpow : (2 : Nat) ^ (8 * (fuel + 1 + 1)) = 2 ^ (8 * (fuel + 1)) * 256 := by
          rw [show 8 * (fuel + 1 + 1) = 8 * (fuel + 1) + 8 by ring, pow_add]
          norm_num
        rw [Nat.div_lt_iff_lt_mul (by norm_num)]
        omega
      simp only [encode_packed_int_aux, if_pos hn, le_value]
      rw [ih _ hdiv, and_255_eq_mod, shiftRight_8_eq_div]
      omega
    · simp only [encode_packed_int_aux, if_neg hn, le_value, and_255_eq_mod]
      omega

theorem encode_aux_length (fuel n k : Nat) (hk : 0 < k) (h : n < 2 ^ (8 * k)) :
    (encode_packed_int_aux fuel n).length ≤ k := by
  induction fuel generalizing n k with
  | zero => simp [encode_packed_int_aux]; omega
  | succ fuel ih =>
    by_cases hn : n > 255
    · have hk2 : 2 ≤ k := by
        by_contra hc
        have : k = 1 := by omega
        subst this
        norm_num at h
        omega
      have hdiv : n >>> 8 < 2 ^ (8 * (k - 1)) := by
        rw [shiftRight_8_eq_div]
        have hpow : (2 : Nat) ^ (8 * k) = 2 ^ (8 * (k - 1)) * 256 := by
          rw [show 8 * k = 8 * (k - 1) + 8 by omega, pow_add]
          norm_num
        rw [Nat.div_lt_iff_lt_mul (by norm_num)]
        omega
      simp only [encode_packed_int_aux, if_pos hn, List.length_cons]
      have := ih (n >>> 8) (k - 1) (by omega) hdiv
      omega
    · simp [encode_packed_int_aux, if_neg hn]
      omega

/-! ## Claims about the packed-integer codec -/

/-- C4: for every `u64` value `n`, running `decode_packed_int` over exactly
the byte sequence `encode_packed_int n` wrote — no extra or missing
bytes — consumes the whole sequence and returns `n`. -/
theorem c4_packed_int_roundtrip (n : Nat) (h : n < 2 ^ 64) :
    decode_packed_int (encode_packed_int n) = (n, []) := by
  have hv : le_value (encode_packed_int n) = n :=
    le_value_encode_aux 8 n (lt_trans h (by norm_num))
  have hl : (encode_packed_int n).length ≤ 8 :=
    encode_aux_length 8 n 8 (by omega) (by norm_num; exact h)
  have hsplit := decode_aux_append (encode_packed_int n) [] 0 0 (by omega)
  rw [List.append_nil] at hsplit
  unfold decode_packed_int
  rw [hsplit, hv]
  simp [decode_packed_int_aux]

theorem c4_packed_int_roundtrip_witness :
    987654321 < 2 ^ 64
    ∧ decode_packed_int (encode_packed_int 987654321) = (987654321, []) :=
  ⟨by norm_num, c4_packed_int_roundtrip 987654321 (by norm_num)⟩

/-- C8 (counterexample): on a 10-byte source, `decode_packed_int` consumes a
ninth byte (the loop's read is evaluated before the `shift < 64` test), so
the remaining source is not the claimed `drop 8` of the input. -/
theorem c8_decode_consumes_ninth_byte :
    (decode_packed_int [1, 1, 1, 1, 1, 1, 1, 1, 1, 9]).snd
      ≠ List.drop 8 [1, 1, 1, 1, 1, 1, 1, 1, 1, 9] := by decide

/-- C8 (amended): on any source with more than 8 bytes, `decode_packed_int`
accumulates the first 8 bytes, then reads and discards a ninth byte before
the 64-bit cap stops the loop; it returns the little-endian value of the
first 8 bytes and leaves the source after the ninth byte unconsumed. -/
theorem c8_decode_long_source_amended (b0 b1 b2 b3 b4 b5 b6 b7 b8 : Nat)
    (rest : List Nat) :
    decode_packed_int (b0 :: b1 :: b2 :: b3 :: b4 :: b5 :: b6 :: b7 :: b8 :: rest)
      = (le_value [b0, b1, b2, b3, b4, b5, b6, b7], rest) := by
  unfold decode_packed_int
  have h := decode_aux_append [b0, b1, b2, b3, b4, b5, b6, b7] (b8 :: rest) 0 0
    (by simp)
  simp only [List.cons_append, List.nil_append, List.length_cons,
    List.length_nil] at h
  rw [h, show 0 + 8 * (0 + 1 + 1 + 1 + 1 + 1 + 1 + 1 + 1) = 64 by norm_num,
    decode_aux_cap]
  simp

/-- C10: `decode_packed_int` is total over (well-behaved, finite) byte
sources: whatever the source, it returns the little-endian value of the
first at-most-8 bytes, never an error of its own; on the empty source it
returns 0 with nothing left — the same value as decoding
`encode_packed_int 0`'s output. -/
theorem c10_decode_packed_int_total :
    (∀ source : List Nat, (decode_packed_int source).fst = le_value (source.take 8))
    ∧ decode_packed_int [] = (0, [])
    ∧ decode_packed_int (encode_packed_int 0) = (0, []) := by
  refine ⟨?_, rfl, by decide⟩
  intro source
  rcases le_or_lt source.length 8 with hle | hgt
  · have h := decode_aux_append source [] 0 0 (by omega)
    rw [List.append_nil] at h
    unfold decode_packed_int
    rw [h, List.take_of_length_le hle]
    simp [decode_packed_int_aux]
  · unfold decode_packed_int
    conv_lhs => rw [← List.take_append_drop 8 source]
    have hlen : (source.take 8).length = 8 := by
      rw [List.length_take]
      omega
    rw [decode_aux_append _ _ 0 0 (by rw [hlen]), hlen,
      show 0 + 8 * 8 = 64 by norm_num, decode_aux_cap]
    simp

/-! ## Claims about the length-varint codec -/

/-- C1 (failing input): `2 ^ 22` is below `2 ^ 28`, yet `encode_length (2 ^ 22)`
emits the single byte `0xFF`, which the length-varint branch-selection
rules decode as the end-of-all-streams sentinel, not as `2 ^ 22`. -/
theorem c1_length_roundtrip_fails_at_pow22 :
    encode_length (2 ^ 22) = some [0xff]
    ∧ decode_length [0xff] = some LengthCode.endOfAllStreams
    ∧ (2 : Nat) ^ 22 < 2 ^ 28 := by decide

/-- C2 (failing input): `4194304 = 2 ^ 22` is a representable non-sentinel
value below `2 ^ 28`, and `encode_length` emits the single byte `0xFF` for
it — the byte value reserved for the end-of-all-streams sentinel. -/
theorem c2_encode_length_emits_sentinel_byte :
    encode_length 4194304 = some [0xff] ∧ (4194304 : Nat) < 2 ^ 28 := by decide

/-- C5 (counterexample): `2 ^ 9` is a power of two with `7 ≤ 9 ≤ 21`, but
`log_base2 (2 ^ 9)` is 265, not 9: the 32-bit popcount folding, run on
`u64` without the final truncation, leaves higher partial-sum bytes in
place, so `log_base2` does not compute the exponent exactly. -/
theorem c5_log_base2_not_exact :
    7 ≤ 9 ∧ 9 ≤ 21 ∧ log_base2 (2 ^ 9) ≠ 9 := by decide

/-- C5 (amended): for every power of two `2 ^ k` with `7 ≤ k ≤ 21`,
`encode_length` writes exactly one byte equal to `0xF0 + (k - 7)`; however,
`log_base2` computes `k` only modulo 256 (exactly only for `k ≤ 8`), and the
cast of `0xF0 + log_base2 n - 7` to `u8` truncates modulo 256, which is why
the emitted byte is nevertheless correct. -/
theorem c5_single_byte_pow2_amended (k : Nat) (h7 : 7 ≤ k) (h21 : k ≤ 21) :
    encode_length (2 ^ k) = some [0xf0 + (k - 7)]
    ∧ log_base2 (2 ^ k) % 256 = k := by
  interval_cases k <;> exact ⟨by decide, by decide⟩

theorem c5_single_byte_pow2_amended_witness :
    7 ≤ 9 ∧ 9 ≤ 21
    ∧ (encode_length (2 ^ 9) = some [0xf0 + (9 - 7)]
        ∧ log_base2 (2 ^ 9) % 256 = 9) :=
  ⟨by decide, by decide, c5_single_byte_pow2_amended 9 (by decide) (by decide)⟩

/-- C6: for every `n ≥ 2 ^ 28`, `encode_length` falls through all five match
guards into the error arm and writes no bytes. -/
theorem c6_encode_length_overflow (n : Nat) (h : 2 ^ 28 ≤ n) :
    encode_length n = none := by
  have h28 : (2 : Nat) ^ 28 = 268435456 := by norm_num
  rw [h28] at h
  unfold encode_length
  have g2 : ¬ (n ≤ 1 <<< 22 ∧ n &&& (n - 1) = 0) := by
    rintro ⟨hle, _⟩
    rw [show (1 : Nat) <<< 22 = 4194304 from rfl] at hle
    omega
  have g4 : ¬ n < 1 <<< 21 := by
    rw [show (1 : Nat) <<< 21 = 2097152 from rfl]
    omega
  have g5 : ¬ n < 1 <<< 28 := by
    rw [show (1 : Nat) <<< 28 = 268435456 from rfl]
    omega
  rw [if_neg (by omega), if_neg g2, if_neg (by omega), if_neg g4, if_neg g5]

theorem c6_encode_length_overflow_witness :
    2 ^ 28 ≤ 2 ^ 28 ∧ encode_length (2 ^ 28) = none :=
  ⟨le_refl _, c6_encode_length_overflow (2 ^ 28) (le_refl _)⟩

/-! ## Helper lemmas: bottle header -/

theorem decode_bottle_type_known (d : Nat)
    (h : d = 0 ∨ d = 1 ∨ d = 3 ∨ d = 4 ∨ d = 10 ∨ d = 11) :
    ∃ t, decode_bottle_type d = .ok t := by
  rcases h with h | h | h | h | h | h <;> subst h <;> exact ⟨_, rfl⟩

theorem decode_bottle_type_unknown (d : Nat)
    (h : ¬ (d = 0 ∨ d = 1 ∨ d = 3 ∨ d = 4 ∨ d = 10 ∨ d = 11)) :
    decode_bottle_type d = .error (.unknownBottleType d) := by
  unfold decode_bottle_type
  split <;> simp_all

/-! ## Claims about the bottle header and framing -/

/-- C3 (failing input): a `File` bottle with a 1-byte header body.  The
preamble emitted by `make_header_stream` is parsed back by `check_magic`
with the right bottle type but `header_length = 0`, not 1: the source's
`((buffer[6] & 0xf) as usize) << 8 + (buffer[7] as usize)` shifts by
`8 + buffer[7]` (Rust binds `+` tighter than `<<`) instead of computing
`((buffer[6] & 0xf) << 8) | buffer[7]`. -/
theorem c3_check_magic_header_length_mismatch :
    check_magic ((make_header_stream BottleType.File [0]).flatten.take 8)
      = Except.ok (BottleType.File, 0)
    ∧ ([0] : List Nat).length = 1 :=
  ⟨rfl, rfl⟩

/-- C7: on an 8-byte preamble buffer, `check_magic` reports `BadMagic`
exactly when the first 4 bytes differ from the magic signature; past that,
`BadVersion` exactly when byte 4 or byte 5 is nonzero; past that,
`UnknownBottleType` exactly when the high nibble of byte 6 is outside
`{0, 1, 3, 4, 10, 11}` — the checks applied in that order, any failure
yielding an error. -/
theorem c7_check_magic_error_classification (buffer : List Nat)
    (hlen : buffer.length = 8) :
    (check_magic buffer = .error .badMagic ↔ buffer.take 4 ≠ MAGIC)
    ∧ (buffer.take 4 = MAGIC →
        ((∃ v e, check_magic buffer = .error (.badVersion v e))
          ↔ (buffer.getD 4 0 ≠ 0 ∨ buffer.getD 5 0 ≠ 0)))
    ∧ (buffer.take 4 = MAGIC → buffer.getD 4 0 = 0 → buffer.getD 5 0 = 0 →
        ((∃ b, check_magic buffer = .error (.unknownBottleType b))
          ↔ ¬ ((buffer.getD 6 0 >>> 4) &&& 0xf = 0
              ∨ (buffer.getD 6 0 >>> 4) &&& 0xf = 1
              ∨ (buffer.getD 6 0 >>> 4) &&& 0xf = 3
              ∨ (buffer.getD 6 0 >>> 4) &&& 0xf = 4
              ∨ (buffer.getD 6 0 >>> 4) &&& 0xf = 10
              ∨ (buffer.getD 6 0 >>> 4) &&& 0xf = 11))) := by
  by_cases h1 : buffer.take 4 = MAGIC
  · by_cases h2 : buffer.getD 4 0 = 0 ∧ buffer.getD 5 0 = 0
    · by_cases h3 : (buffer.getD 6 0 >>> 4) &&& 0xf = 0
          ∨ (buffer.getD 6 0 >>> 4) &&& 0xf = 1
          ∨ (buffer.getD 6 0 >>> 4) &&& 0xf = 3
          ∨ (buffer.getD 6 0 >>> 4) &&& 0xf = 4
          ∨ (buffer.getD 6 0 >>> 4) &&& 0xf = 10
          ∨ (buffer.getD 6 0 >>> 4) &&& 0xf = 11
      · obtain ⟨t, ht⟩ := decode_bottle_type_known _ h3
        have hcm : check_magic buffer
            = .ok (t, (buffer.getD 6 0 &&& 0xf) <<< (8 + buffer.getD 7 0)) := by
          unfold check_magic
          rw [if_neg (not_not_intro h1), if_neg (by simp [-List.getD_eq_getElem?_getD, VERSION, h2.1, h2.2]), ht]
        exact ⟨by simp [hcm, h1], fun _ => by simp [-List.getD_eq_getElem?_getD, hcm, h2.1, h2.2],
          fun _ _ _ => by simp [-List.getD_eq_getElem?_getD, hcm, h3]⟩
      · have hcm : check_magic buffer
            = .error (.unknownBottleType ((buffer.getD 6 0 >>> 4) &&& 0xf)) := by
          unfold check_magic
          rw [if_neg (not_not_intro h1), if_neg (by simp [-List.getD_eq_getElem?_getD, VERSION, h2.1, h2.2]),
            decode_bottle_type_unknown _ h3]
        exact ⟨by simp [hcm, h1], fun _ => by simp [-List.getD_eq_getElem?_getD, hcm, h2.1, h2.2],
          fun _ _ _ => by simp [-List.getD_eq_getElem?_getD, hcm, h3]⟩
    · have hcm : check_magic buffer
          = .error (.badVersion (buffer.getD 4 0) (buffer.getD 5 0)) := by
        unfold check_magic
        rw [if_neg (not_not_intro h1), if_pos (by simpa [VERSION] using not_and_or.mp h2)]
      refine ⟨by simp [hcm, h1], fun _ => ?_, fun _ h4 h5 => absurd ⟨h4, h5⟩ h2⟩
      simp only [hcm]
      constructor
      · intro _
        exact not_and_or.mp h2
      · intro _
        exact ⟨_, _, rfl⟩
  · have hcm : check_magic buffer = .error .badMagic := by
      unfold check_magic
      rw [if_pos h1]
    exact ⟨by simp [hcm, h1], fun hmag => absurd hmag h1, fun hmag _ _ => absurd hmag h1⟩

theorem c7_check_magic_error_classification_witness :
    ([0xf0, 0x9f, 0x8d, 0xbc, 0, 0, 0x10, 5] : List Nat).length = 8
    ∧ ((check_magic [0xf0, 0x9f, 0x8d, 0xbc, 0, 0, 0x10, 5] = .error .badMagic)
        ↔ ([0xf0, 0x9f, 0x8d, 0xbc, 0, 0, 0x10, 5] : List Nat).take 4 ≠ MAGIC) :=
  ⟨rfl, (c7_check_magic_error_classification
    [0xf0, 0x9f, 0x8d, 0xbc, 0, 0, 0x10, 5] rfl).1⟩

/-- C9: framing a sequence of chunk-groups yields one group per input group,
in order, each being the input group with `encode_length` of its total byte
length pushed in front, followed by exactly one final element holding the
single-byte end-of-stream sentinel. -/
theorem c9_framed_vec_stream_shape (s : List (List (List Nat))) :
    (framed_vec_stream s).length = s.length + 1
    ∧ (∀ i, i < s.length → total_length (s.getD i []) < 2 ^ 32 →
        (framed_vec_stream s).getD i []
          = encode_length_bytes (total_length (s.getD i [])) :: s.getD i [])
    ∧ (framed_vec_stream s).getLast? = some [END_OF_STREAM_BYTES] := by
  refine ⟨by simp [framed_vec_stream], ?_, List.getLast?_concat _⟩
  intro i hi hlt
  unfold framed_vec_stream
  rw [List.getD_eq_getElem?_getD, List.getElem?_append_left (by simpa using hi),
    List.getElem?_map, List.getElem?_eq_getElem hi]
  simp only [Option.map_some', Option.getD_some, List.getD_eq_getElem?_getD,
    List.getElem?_eq_getElem hi, Nat.mod_eq_of_lt]
  rw [Nat.mod_eq_of_lt]
  simpa [List.getD_eq_getElem?_getD, List.getElem?_eq_getElem hi] using hlt

theorem c9_framed_vec_stream_shape_witness :
    0 < ([[[1, 2], [3]]] : List (List (List Nat))).length
    ∧ total_length (([[[1, 2], [3]]] : List (List (List Nat))).getD 0 []) < 2 ^ 32
    ∧ (framed_vec_stream [[[1, 2], [3]]]).getD 0 []
        = encode_length_bytes (total_length (([[[1, 2], [3]]] : List (List (List Nat))).getD 0 []))
          :: ([[[1, 2], [3]]] : List (List (List Nat))).getD 0 [] :=
  ⟨by decide, by decide,
    (c9_framed_vec_stream_shape [[[1, 2], [3]]]).2.1 0 (by decide) (by decide)⟩

/-! ## Concrete vectors from the repository's tests (test_zint.rs) -/

example : encode_packed_int 987654321 = [0xb1, 0x68, 0xde, 0x3a] := by decide
example : END_OF_STREAM_BYTES = [0x00] := by decide
example : (make_header_stream .File [7]).flatten.take 8 =
    [0xf0, 0x9f, 0x8d, 0xbc, 0, 0, 0, 1] := by decide
example : check_magic [0xf0, 0x9f, 0x8d, 0xbc, 0, 0, 0, 1] =
    .ok (.File, 0) := by rfl
example : check_magic [0xf0, 0x9f, 0x8d, 0xbc, 0, 0, 0x55, 9] =
    .error (.unknownBottleType 5) := by rfl
example : framed_vec_stream [[[1, 2, 3]]] = [[[3], [1, 2, 3]], [[0]]] := by decide
example : decode_packed_int [0xb1, 0x68, 0xde, 0x3a] = (987654321, []) := by decide
example : encode_length 1024 = some [0xf3] := by decide
example : encode_length 129 = some [0x81, 0x02] := by decide
example : encode_length 12345 = some [0xd9, 0x81, 0x01] := by decide
example : encode_length 3998778 = some [0xea, 0x43, 0xd0, 0x03] := by decide
example : encode_length 87654321 = some [0xe1, 0xfb, 0x97, 0x53] := by decide
example : encode_length (2 ^ 21) = some [0xfe] := by decide
example : encode_length (2 ^ 22) = some [0xff] := by decide
example : log_base2 512 = 265 := by decide
example : decode_length [0xd9, 0x81, 0x01] = some (.value 12345) := by decide

end Lib4bottle
